import Mathlib

/-!
Kanban board view and column settings editor

A shallow embedding of `client/src/pages/BoardView.js` and
`client/src/components/ColumnSettings.js`.

Modelling conventions
* JavaScript objects are records and arrays are lists.  A task record carries
  the identity of its object in the field `objId`: entries with the same
  `objId` are one object, reached from several places.  Assigning to a property
  of an object rewrites every entry that is this object, in every array that
  holds it.
* A JavaScript number with an integer value is an integer that a double holds;
  printing it and reading a numeral follow the rounding of doubles.
* `source.index` and `destination.index` are natural numbers (the drag and drop
  library reports positions in a rendered list).
* The two remote operations `getBoard` and `updateTask` are a parameter: each
  call either resolves or rejects.  A handler returns the list of state
  writes and remote calls it performs, in order, up to the point where every
  request it started has settled.
-/

deriving instance DecidableEq for Except

namespace Kanban

/-! ## Data model -/

/-- A task of a board: `task._id`, `task.title`, `task.status`; `objId` is the
identity of the object (it is not a property that the code reads). -/
structure Task where
  objId : Nat
  _id : String
  title : String
  status : String
  deriving DecidableEq, Repr

/-- A board as returned by `getBoard`: `board._id`, `board.name`, `board.tasks`. -/
structure Board where
  _id : String
  name : String
  tasks : List Task
  deriving DecidableEq, Repr

/-- An entry of the constant `columns` (BoardView.js, lines 7-16). -/
structure ColumnDef where
  id : String
  title : String
  deriving DecidableEq, Repr

/-- The constant `columns` (BoardView.js, lines 7-16). -/
def columns : List ColumnDef :=
  [ { id := "Backlog", title := "Backlog" },
    { id := "To Do", title := "To Do" },
    { id := "Specification Active", title := "Specification Active" },
    { id := "Specification Done", title := "Specification Done" },
    { id := "Implementation Active", title := "Implementation Active" },
    { id := "Implementation Done", title := "Implementation Done" },
    { id := "Test", title := "Test" },
    { id := "Done", title := "Done" } ]

/-- A position reported by the drag and drop library: `droppableId`, `index`. -/
structure DraggableLocation where
  droppableId : String
  index : Nat
  deriving DecidableEq, Repr

/-- The argument of `onDragEnd`; `destination` is `none` when the drop target
was invalid. -/
structure DropResult where
  destination : Option DraggableLocation
  source : DraggableLocation
  draggableId : String
  deriving DecidableEq, Repr

/-! ## JavaScript helpers -/

/-- An object whose keys are strings, in insertion order. -/
abbrev JsObject (α : Type) := List (String × α)

/-- Assignment `obj[key] = value`: an existing key keeps its place. -/
def JsObject.set {α : Type} : JsObject α → String → α → JsObject α
  | [], key, value => [(key, value)]
  | (k, v) :: rest, key, value =>
    if k = key then (k, value) :: rest else (k, v) :: JsObject.set rest key value

/-- Property read `obj[key]`; `none` stands for `undefined`. -/
def JsObject.get {α : Type} : JsObject α → String → Option α
  | [], _ => none
  | (k, v) :: rest, key => if k = key then some v else JsObject.get rest key

/-- `Array.prototype.splice(start, deleteCount, ...items)` for a start that is
not negative: the start is clamped to the length and the delete count to what
is left after it.  Returns the removed elements and the array after the
call. -/
def splice {α : Type} (arr : List α) (start deleteCount : Nat) (items : List α) :
    List α × List α :=
  let actualStart := min start arr.length
  let actualDeleteCount := min deleteCount (arr.length - actualStart)
  ((arr.drop actualStart).take actualDeleteCount,
   arr.take actualStart ++ items ++ arr.drop (actualStart + actualDeleteCount))

/-- The assignment `object.status = status` as seen from an array: every entry
that is the object `objId` shows the new status. -/
def assignStatus (objId : Nat) (status : String) (arr : List Task) : List Task :=
  arr.map (fun task => if task.objId = objId then { task with status := status } else task)

/-! ## Rendering: `groupedTasks` -/

/-- The constant `groupedTasks` (BoardView.js, lines 95-98): a reduce over
`columns` that stores under each column id the tasks with that status. -/
def groupedTasks (tasks : List Task) : JsObject (List Task) :=
  columns.foldl
    (fun acc column => acc.set column.id (tasks.filter (fun tasks => tasks.status = column.id)))
    []

/-- The tasks in the order in which the view renders them (BoardView.js, lines
105-141): for each entry of `columns` in turn, the tasks of
`groupedTasks[column.id]`, and nothing where that is `undefined`. -/
def bucketsInColumnOrder (tasks : List Task) : List Task :=
  (columns.map (fun column => ((groupedTasks tasks).get column.id).getD [])).flatten

/-! ## State and effects of `BoardView` -/

/-- The three state cells of `BoardView` (lines 19-21). -/
structure BoardViewState where
  board : Option Board
  loading : Bool
  error : Option String
  deriving DecidableEq, Repr

/-- What a handler of `BoardView` does to the outside: a write to one of the
state cells or a call to `../services/api`. -/
inductive Event where
  | setBoard (board : Board)
  | setLoading (loading : Bool)
  | setError (error : Option String)
  | getBoard (id : String)
  | updateTask (boardId taskId status : String)
  deriving DecidableEq, Repr

/-- The state after one event; a remote call leaves the state as it is. -/
def applyEvent (st : BoardViewState) : Event → BoardViewState
  | .setBoard board => { st with board := some board }
  | .setLoading loading => { st with loading := loading }
  | .setError error => { st with error := error }
  | .getBoard _ => st
  | .updateTask _ _ _ => st

/-- The state after a list of events. -/
def runEvents (st : BoardViewState) (events : List Event) : BoardViewState :=
  events.foldl applyEvent st

/-- Whether an event is an `updateTask` call. -/
def Event.isUpdateTask : Event → Bool
  | .updateTask _ _ _ => true
  | _ => false

/-- Whether an event is a remote call. -/
def Event.isRemoteCall : Event → Bool
  | .updateTask _ _ _ => true
  | .getBoard _ => true
  | _ => false

/-- The backend as seen by the view: `getBoard id` resolves with a board or
rejects (`none`); `updateTask boardId taskId status` resolves (`true`) or
rejects (`false`). -/
structure Api where
  getBoard : String → Option Board
  updateTask : String → String → String → Bool

/-- The callback `fetchBoard` (BoardView.js, lines 24-37); `id` is the route
parameter. -/
def fetchBoard (api : Api) (id : String) : List Event :=
  [Event.setLoading true, Event.setError none, Event.getBoard id] ++
  (match api.getBoard id with
   | some data => [Event.setBoard data]
   | none => [Event.setError (some "Failed to load board data. Please try again.")]) ++
  [Event.setLoading false]

/-- How `onDragEnd` can fail to produce a task list. -/
inductive DragError where
  /-- A `TypeError` escapes the handler before `setBoard`: nothing was written
  and nothing was sent (no board, or an `undefined` moved task whose status is
  assigned on line 70). -/
  | typeError
  /-- A reorder inside one column found no task at `source.index`: line 66
  stores `undefined` in the array, which a list of tasks cannot hold.  (The
  handler writes that array with `setBoard`; reading `movedTask._id` then throws
  inside the `try` block and `fetchBoard` is called.) -/
  | undefinedEntry
  deriving DecidableEq, Repr

/-- Lines 58-78 of `onDragEnd`: the new `tasks` array and the moved task, from
the current `tasks` array and the two positions.  The assignment of line 70
reaches the moved object wherever it is held: in the board's array, which line
75 filters afterwards, and in the two buckets. -/
def reorderTasks (tasks : List Task) (source destination : DraggableLocation) :
    Except DragError (List Task × Task) :=
  let sourceTasks := tasks.filter (fun task => task.status = source.droppableId)
  let destinationTasks := tasks.filter (fun task => task.status = destination.droppableId)
  let removed := splice sourceTasks source.index 1 []
  let sourceTasks := removed.2
  match removed.1.head? with
  | none =>
    if source.droppableId ≠ destination.droppableId then .error .typeError
    else .error .undefinedEntry
  | some movedTask =>
    let destinationTasks := (splice destinationTasks destination.index 0 [movedTask]).2
    if source.droppableId ≠ destination.droppableId then
      let write := assignStatus movedTask.objId destination.droppableId
      .ok ((write tasks).filter (fun task =>
              task.status ≠ source.droppableId ∧ task.status ≠ destination.droppableId)
            ++ write sourceTasks ++ write destinationTasks,
           { movedTask with status := destination.droppableId })
    else
      .ok (tasks.filter (fun task =>
              task.status ≠ source.droppableId ∧ task.status ≠ destination.droppableId)
            ++ sourceTasks ++ destinationTasks,
           movedTask)

/-- The handler `onDragEnd` (BoardView.js, lines 44-89); `st` is the state the
handler closes over and `id` the route parameter. -/
def onDragEnd (api : Api) (id : String) (st : BoardViewState) (result : DropResult) :
    Except DragError (List Event) :=
  match result.destination with
  | none => .ok []
  | some destination =>
    let source := result.source
    if destination.droppableId = source.droppableId ∧ destination.index = source.index then
      .ok []
    else
      match st.board with
      | none => .error .typeError
      | some board =>
        match reorderTasks board.tasks source destination with
        | .error e => .error e
        | .ok (tasks, movedTask) =>
          let newBoard := { board with tasks := tasks }
          .ok ([Event.setBoard newBoard,
                Event.updateTask board._id movedTask._id movedTask.status] ++
               (if api.updateTask board._id movedTask._id movedTask.status then []
                else fetchBoard api id))

/-- A closed form of the `tasks` array that `onDragEnd` passes to `setBoard`
when the task `orig` sits at `source.index` of the source bucket (see
`reorderTasks_ok`). -/
def tasksAfterDrag (tasks : List Task) (source destination : DraggableLocation)
    (orig : Task) : List Task :=
  let write := fun (arr : List Task) =>
    if source.droppableId ≠ destination.droppableId then
      assignStatus orig.objId destination.droppableId arr
    else arr
  let dst := tasks.filter (fun task => task.status = destination.droppableId)
  (write tasks).filter (fun task =>
      task.status ≠ source.droppableId ∧ task.status ≠ destination.droppableId)
    ++ write ((tasks.filter (fun task => task.status = source.droppableId)).eraseIdx
        source.index)
    ++ write (dst.insertIdx (min destination.index dst.length) orig)

/-- The same array when no other entry of `tasks` is the object `orig`: the
tasks of the other columns, the source bucket without its entry at
`source.index`, the destination bucket with `orig`, status rewritten, inserted
at `destination.index` (see `tasksAfterDrag_of_nodup`). -/
def tasksAfterDragDistinct (tasks : List Task) (source destination : DraggableLocation)
    (orig : Task) : List Task :=
  let dst := tasks.filter (fun task => task.status = destination.droppableId)
  tasks.filter (fun task =>
      task.status ≠ source.droppableId ∧ task.status ≠ destination.droppableId)
    ++ (tasks.filter (fun task => task.status = source.droppableId)).eraseIdx source.index
    ++ dst.insertIdx (min destination.index dst.length)
        { orig with status := destination.droppableId }

/-! ## The column settings editor -/

/-- The number of low bits that a natural number loses when it is cut to the
53 bits of the significand of a double. -/
def droppedBits : Nat → Nat → Nat
  | 0, _ => 0
  | fuel + 1, n => if n < 2 ^ 53 then 0 else droppedBits fuel (n / 2) + 1

/-- The double nearest to a natural number, as a natural number: 53 bits are
kept, the rest is rounded to nearest, a tie to the even significand.  The
exponent is not bounded here; `parseInt` turns a result from `2 ^ 1024` on into
`Infinity`. -/
def roundToDouble (n : Nat) : Nat :=
  let e := droppedBits n n
  let q := n / 2 ^ e
  let r := n % 2 ^ e
  if 2 * r < 2 ^ e then q * 2 ^ e
  else if 2 ^ e < 2 * r then (q + 1) * 2 ^ e
  else if q % 2 = 0 then q * 2 ^ e
  else (q + 1) * 2 ^ e

/-- A JavaScript number whose value is an integer: an integer that a double
holds. -/
structure JsInteger where
  val : Int
  isDouble : roundToDouble val.natAbs = val.natAbs
  deriving DecidableEq

/-- The prop `column` of `ColumnSettings`; `none` in `doneRule` or `wipLimit`
stands for a property that is absent (or `null`).  A limit that is present is
a number with an integer value. -/
structure Column where
  id : String
  title : String
  doneRule : Option String
  wipLimit : Option JsInteger
  deriving DecidableEq

/-- The two state cells of `ColumnSettings` (lines 5-6): the staged texts. -/
structure SettingsState where
  doneRule : String
  wipLimit : String
  deriving DecidableEq, Repr

/-- A number produced by `parseInt`: `NaN`, an infinity, the negative zero or an
integer that a double holds. -/
inductive JsNumber where
  | nan
  | infinity (negative : Bool)
  | negZero
  | int (n : Int)
  deriving DecidableEq, Repr

/-- The object handed to `onSave`; `none` in `wipLimit` stands for `null`. -/
structure Patch where
  doneRule : String
  wipLimit : Option JsNumber
  deriving DecidableEq, Repr

/-- A call of one of the callbacks passed to `ColumnSettings`. -/
inductive SettingsCall where
  | onSave (id : String) (patch : Patch)
  | onClose
  deriving DecidableEq, Repr

/-- Among the numerals that end in as many zeros as the power of ten `m` has,
the one that stands for the double `x`: of the two multiples of `m` next to `x`,
the one that rounds to `x`; when both do, the nearer one, and the one with the
even quotient when both are as near.  (Rounding keeps the order, so a multiple
further away rounds to `x` only if the one next to `x` on its side does.) -/
def shortestCandidate (x m : Nat) : Option Nat :=
  let lo := x / m * m
  let hi := lo + m
  if roundToDouble lo = x ∧ roundToDouble hi = x then
    if x - lo < hi - x then some lo
    else if hi - x < x - lo then some hi
    else if (x / m) % 2 = 0 then some lo
    else some hi
  else if roundToDouble lo = x then some lo
  else if roundToDouble hi = x then some hi
  else none

/-- The integer whose numeral `Number.prototype.toString` prints for the double
`x`: the one with the fewest significant digits that rounds to `x` (and, of
several, the nearest to `x`, as engines choose).  Numerals with one significant
digit are tried first, then two, up to the digits of `x` itself. -/
def shortestDecimal (x : Nat) : Nat :=
  let n := (Nat.toDigits 10 x).length
  ((List.range n).findSome? (fun i => shortestCandidate x (10 ^ (n - 1 - i)))).getD x

/-- Drops the zeros at the end of a digit list. -/
def stripTrailingZeros (digits : List Char) : List Char :=
  (digits.reverse.dropWhile (fun c => c = '0')).reverse

/-- `Number.prototype.toString()` on a double whose value is the natural number
`x`.  The digits are those of `shortestDecimal x`; a numeral of at most 21
digits is printed in full, a longer one in the exponent form `d.ddde+x`. -/
def natToString (x : Nat) : List Char :=
  let digits := Nat.toDigits 10 (shortestDecimal x)
  if digits.length ≤ 21 then digits
  else
    let significant := stripTrailingZeros digits
    let fraction := if significant.tail = [] then [] else '.' :: significant.tail
    significant.take 1 ++ fraction ++ ['e', '+'] ++ Nat.toDigits 10 (digits.length - 1)

/-- `Number.prototype.toString()` on a number with an integer value. -/
def numberToString (n : JsInteger) : String :=
  if n.val < 0 then String.mk ('-' :: natToString n.val.natAbs)
  else String.mk (natToString n.val.natAbs)

/-- The white space and line terminator characters that `parseInt` skips. -/
def isStrWhiteSpaceChar (c : Char) : Bool :=
  c.toNat ∈ [0x9, 0xA, 0xB, 0xC, 0xD, 0x20, 0xA0, 0x1680, 0x2028, 0x2029, 0x202F, 0x205F,
    0x3000, 0xFEFF] ∨ (0x2000 ≤ c.toNat ∧ c.toNat ≤ 0x200A)

/-- The digits that `parseInt` reads in radix 10: the characters 0 to 9. -/
def isDecimalDigit (c : Char) : Bool :=
  '0'.toNat ≤ c.toNat ∧ c.toNat ≤ '9'.toNat

/-- The value of a list of decimal digits. -/
def digitsValue (digits : List Char) : Nat :=
  digits.foldl (fun acc c => 10 * acc + (c.toNat - '0'.toNat)) 0

/-- The call `parseInt(string, 10)`: leading white space is skipped, one sign is
read, then the longest run of decimal digits; no digit gives `NaN`.  The value
of the digits is rounded to a double.  (Every digit counts here; the language
also lets an engine read the digits after the twentieth significant one as
zeros.) -/
def parseInt (string : String) : JsNumber :=
  let s := string.toList.dropWhile isStrWhiteSpaceChar
  let negative : Bool := s.head? = some '-'
  let s := if s.head? = some '+' ∨ s.head? = some '-' then s.tail else s
  let z := s.takeWhile isDecimalDigit
  if z = [] then JsNumber.nan
  else
    let number := roundToDouble (digitsValue z)
    if 2 ^ 1024 ≤ number then JsNumber.infinity negative
    else if number = 0 ∧ negative = true then JsNumber.negZero
    else JsNumber.int (if negative = true then -(number : Int) else number)

/-- The effect on `column` (ColumnSettings.js, lines 8-13). -/
def useEffectColumn (column : Option Column) (st : SettingsState) : SettingsState :=
  match column with
  | none => st
  | some column =>
    let doneRule :=
      match column.doneRule with
      | some s => if s ≠ "" then s else ""
      | none => ""
    let wipLimit :=
      match column.wipLimit with
      | some n => if n.val ≠ 0 then numberToString n else ""
      | none => ""
    { doneRule := doneRule, wipLimit := wipLimit }

/-- The handler `handleSave` (ColumnSettings.js, lines 15-21): the callbacks
it calls, in order; `none` when `column` is absent and reading `column.id`
throws. -/
def handleSave (column : Option Column) (st : SettingsState) : Option (List SettingsCall) :=
  match column with
  | none => none
  | some column =>
    some [SettingsCall.onSave column.id
            { doneRule := st.doneRule,
              wipLimit := if st.wipLimit ≠ "" then some (parseInt st.wipLimit) else none },
          SettingsCall.onClose]

/-! ## Sample data -/

/-- A task in the "To Do" column. -/
def taskA : Task := { objId := 1, _id := "t1", title := "Write parser", status := "To Do" }

/-- A second task in the "To Do" column. -/
def taskB : Task := { objId := 2, _id := "t2", title := "Draw mockups", status := "To Do" }

/-- A task in the "Done" column. -/
def taskC : Task :=
  { objId := 3, _id := "t3", title := "Set up repository", status := "Done" }

/-- A board with two tasks to do and one done. -/
def sampleBoard : Board := { _id := "b1", name := "Sprint", tasks := [taskA, taskB, taskC] }

/-- The state of the view once `sampleBoard` is loaded. -/
def sampleState : BoardViewState := { board := some sampleBoard, loading := false, error := none }

/-- A backend on which every update succeeds. -/
def acceptingApi : Api := { getBoard := fun _ => some sampleBoard, updateTask := fun _ _ _ => true }

/-- A backend that rejects every update and serves `sampleBoard`. -/
def rejectingApi : Api :=
  { getBoard := fun _ => some sampleBoard, updateTask := fun _ _ _ => false }

/-- Dragging `taskA` from the top of "To Do" onto the top of "Done". -/
def dragAcross : DropResult :=
  { destination := some { droppableId := "Done", index := 0 },
    source := { droppableId := "To Do", index := 0 },
    draggableId := "t1" }

/-- Dragging `taskA` from the top of "To Do" to the second place of "To Do". -/
def dragWithin : DropResult :=
  { destination := some { droppableId := "To Do", index := 1 },
    source := { droppableId := "To Do", index := 0 },
    draggableId := "t1" }

/-- The board that a reorder of `taskA` inside "To Do" leaves of `sampleBoard`:
the objects `taskA` and `taskB` are held twice. -/
def aliasedBoard : Board :=
  { sampleBoard with tasks := [taskC, taskB, taskA, taskA, taskB] }

/-- The state of the view once `aliasedBoard` is written. -/
def aliasedState : BoardViewState :=
  { board := some aliasedBoard, loading := false, error := none }

/-- Dragging the task at the top of "To Do" of `aliasedBoard`, which is `taskB`,
onto the top of "Done". -/
def dragSecond : DropResult :=
  { destination := some { droppableId := "Done", index := 0 },
    source := { droppableId := "To Do", index := 0 },
    draggableId := "t2" }

/-- Dropping `taskA` outside every column. -/
def dragNowhere : DropResult :=
  { destination := none,
    source := { droppableId := "To Do", index := 0 },
    draggableId := "t1" }

/-- A column with a done rule and a limit of five tasks in progress. -/
def limitedColumn : Column :=
  { id := "To Do", title := "To Do", doneRule := some "reviewed",
    wipLimit := some { val := 5, isDouble := by decide } }

/-- A column with a done rule and no limit. -/
def unlimitedColumn : Column :=
  { id := "Backlog", title := "Backlog", doneRule := some "triaged", wipLimit := none }

/-- A column whose limit is `10 ^ 21`. -/
def hugeLimitColumn : Column :=
  { id := "Test", title := "Test", doneRule := some "x",
    wipLimit := some { val := 1000000000000000000000, isDouble := by decide } }

/-- A column whose limit is the double 999999999999999868928, beyond `2 ^ 53`. -/
def largeLimitColumn : Column :=
  { id := "Done", title := "Done", doneRule := some "x",
    wipLimit := some { val := 999999999999999868928, isDouble := by decide } }

/-- The staged fields of a freshly mounted editor. -/
def initialSettings : SettingsState := { doneRule := "", wipLimit := "" }

/-! ## Lemmas on the helpers -/

theorem groupedTasks_eq (tasks : List Task) :
    groupedTasks tasks =
      columns.map (fun column => (column.id, tasks.filter (fun t => t.status = column.id))) := by
  rfl

theorem groupedTasks_get_column (tasks : List Task) (column : ColumnDef)
    (h : column ∈ columns) :
    (groupedTasks tasks).get column.id =
      some (tasks.filter (fun t => t.status = column.id)) := by
  rw [groupedTasks_eq]
  simp only [columns, List.mem_cons, List.mem_singleton, List.not_mem_nil, or_false] at h
  rcases h with h | h | h | h | h | h | h | h <;> subst h <;>
    simp [columns, JsObject.get]

theorem get_map_some {α : Type} (f : String → α) (key : String) (b : α) :
    ∀ (cols : List ColumnDef),
      JsObject.get (cols.map (fun column => (column.id, f column.id))) key = some b →
      (∃ column ∈ cols, column.id = key) ∧ b = f key
  | [], h => by simp [JsObject.get] at h
  | c :: cols, h => by
    simp only [List.map_cons, JsObject.get] at h
    by_cases hk : c.id = key
    · rw [if_pos hk] at h
      exact ⟨⟨c, List.mem_cons_self _ _, hk⟩, by rw [← hk]; exact (Option.some.inj h).symm⟩
    · rw [if_neg hk] at h
      obtain ⟨⟨column, hc, hid⟩, hb⟩ := get_map_some f key b cols h
      exact ⟨⟨column, List.mem_cons_of_mem _ hc, hid⟩, hb⟩

theorem groupedTasks_get_some (tasks : List Task) (key : String) (b : List Task)
    (h : (groupedTasks tasks).get key = some b) :
    (∃ column ∈ columns, column.id = key) ∧ b = tasks.filter (fun t => t.status = key) := by
  rw [groupedTasks_eq] at h
  exact get_map_some (fun c => tasks.filter (fun t => t.status = c)) key b columns h

theorem filter_status_filter_status (tasks : List Task) (c d : String) :
    (tasks.filter (fun t => t.status = d)).filter (fun t => t.status = c) =
      if c = d then tasks.filter (fun t => t.status = c) else [] := by
  split
  · rename_i h
    subst h
    rw [List.filter_filter]; simp
  · rename_i h
    rw [List.filter_eq_nil_iff]
    intro a ha
    simp only [List.mem_filter, decide_eq_true_eq] at ha
    simp only [decide_eq_true_eq]
    intro hc
    exact h (hc ▸ ha.2)

theorem bucketsInColumnOrder_eq (tasks : List Task) :
    bucketsInColumnOrder tasks =
      (columns.map (fun column => tasks.filter (fun t => t.status = column.id))).flatten := by
  rfl

theorem splice_remove_one {α : Type} (arr : List α) (i : Nat) (h : i < arr.length) :
    splice arr i 1 [] = ([arr[i]], arr.eraseIdx i) := by
  simp only [splice, List.append_nil]
  have h1 : min i arr.length = i := by omega
  have h2 : min 1 (arr.length - i) = 1 := by omega
  rw [h1, h2, List.eraseIdx_eq_take_drop_succ, List.drop_eq_getElem_cons h]
  rfl

theorem insertIdx_eq_take_drop {α : Type} (x : α) : ∀ (arr : List α) (j : Nat),
    j ≤ arr.length → arr.insertIdx j x = arr.take j ++ x :: arr.drop j
  | _, 0, _ => by simp
  | [], j + 1, h => by simp at h
  | a :: arr, j + 1, h => by
    simp only [List.insertIdx_succ_cons, List.take_succ_cons, List.drop_succ_cons,
      List.cons_append]
    rw [insertIdx_eq_take_drop x arr j (by simpa using h)]

theorem splice_insert_one {α : Type} (arr : List α) (j : Nat) (x : α) :
    (splice arr j 0 [x]).2 = arr.insertIdx (min j arr.length) x := by
  rw [insertIdx_eq_take_drop x arr _ (by omega)]
  simp [splice]

/-! ## Lemmas on `onDragEnd` -/

theorem filter_split_at {α : Type} (p : α → Bool) : ∀ (l : List α) (i : Nat),
    i < (l.filter p).length →
    ∃ before x after, l = before ++ x :: after ∧ p x = true ∧ (before.filter p).length = i
  | [], i, h => by simp at h
  | a :: l, i, h => by
    by_cases hp : p a = true
    · cases i with
      | zero => exact ⟨[], a, l, rfl, hp, rfl⟩
      | succ i =>
        have h' : i < (l.filter p).length := by
          simp only [List.filter_cons, hp, if_true, List.length_cons] at h
          omega
        obtain ⟨before, x, after, hl, hx, hlen⟩ := filter_split_at p l i h'
        refine ⟨a :: before, x, after, by rw [hl]; rfl, hx, ?_⟩
        simp [List.filter_cons, hp, hlen]
    · have h' : i < (l.filter p).length := by
        simpa [List.filter_cons, hp] using h
      obtain ⟨before, x, after, hl, hx, hlen⟩ := filter_split_at p l i h'
      refine ⟨a :: before, x, after, by rw [hl]; rfl, hx, ?_⟩
      simp [List.filter_cons, hp, hlen]

theorem filter_getElem?_of_split {α : Type} (p : α → Bool) (before after : List α) (x : α)
    (hx : p x = true) :
    ((before ++ x :: after).filter p)[(before.filter p).length]? = some x := by
  rw [List.filter_append, List.filter_cons, if_pos hx, List.getElem?_append_right (le_refl _)]
  simp

theorem filter_eraseIdx_of_split {α : Type} (p : α → Bool) (before after : List α) (x : α)
    (hx : p x = true) :
    ((before ++ x :: after).filter p).eraseIdx (before.filter p).length =
      (before ++ after).filter p := by
  rw [List.filter_append, List.filter_cons, if_pos hx,
    List.eraseIdx_append_of_length_le (le_refl _)]
  simp

theorem status_of_getElem?_filter (tasks : List Task) (c : String) (i : Nat) (orig : Task)
    (h : (tasks.filter (fun t => t.status = c))[i]? = some orig) : orig.status = c := by
  have hm := List.getElem?_mem h
  simpa using (List.mem_filter.mp hm).2

theorem partition_perm (tasks : List Task) (src dst : String) (h : src ≠ dst) :
    (tasks.filter (fun task => task.status ≠ src ∧ task.status ≠ dst)
      ++ tasks.filter (fun task => task.status = src)
      ++ tasks.filter (fun task => task.status = dst)).Perm tasks := by
  induction tasks with
  | nil => simp
  | cons t ts ih =>
    simp only [List.append_assoc] at ih ⊢
    by_cases h1 : t.status = src
    · subst h1
      simp only [List.filter_cons, h, ne_eq, not_true_eq_false, false_and, decide_False,
        decide_True, if_true, if_false, Bool.false_eq_true, List.cons_append]
      exact List.perm_middle.trans (List.Perm.cons t ih)
    · by_cases h2 : t.status = dst
      · subst h2
        simp only [List.filter_cons, h1, ne_eq, not_true_eq_false, and_false, decide_False,
          decide_True, if_true, if_false, Bool.false_eq_true]
        rw [← List.append_assoc]
        exact List.perm_middle.trans (List.Perm.cons t (by simpa using ih))
      · simp only [List.filter_cons, h1, h2, ne_eq, not_false_eq_true, and_self, decide_False,
          decide_True, if_true, if_false, Bool.false_eq_true, List.cons_append]
        exact List.Perm.cons t ih

theorem reorderTasks_ok (tasks : List Task) (source destination : DraggableLocation)
    (orig : Task)
    (ho : (tasks.filter (fun t => t.status = source.droppableId))[source.index]? = some orig) :
    reorderTasks tasks source destination =
      .ok (tasksAfterDrag tasks source destination orig,
           { orig with status := destination.droppableId }) := by
  have hlt : source.index < (tasks.filter (fun t => t.status = source.droppableId)).length := by
    by_contra hge
    rw [List.getElem?_eq_none (by omega)] at ho
    cases ho
  have hget : (tasks.filter (fun t => t.status = source.droppableId))[source.index] = orig := by
    rw [List.getElem?_eq_getElem hlt] at ho
    exact Option.some.inj ho
  have hst := status_of_getElem?_filter tasks _ _ _ ho
  unfold reorderTasks
  simp only [splice_remove_one _ _ hlt, List.head?_cons, hget, splice_insert_one]
  by_cases hne : source.droppableId = destination.droppableId
  · have : ({ orig with status := destination.droppableId } : Task) = orig := by
      cases orig; simp_all
    simp [hne, tasksAfterDrag, this]
  · simp [hne, tasksAfterDrag]

/-- A reorder inside one column (same droppableId) with a valid `source.index`
writes a list that is longer than the old one by the size of that column's
bucket: the bucket is copied twice on lines 59-60 and both copies are kept. -/
theorem reorderTasks_same_column_length (tasks : List Task)
    (source destination : DraggableLocation) (orig : Task)
    (hsame : source.droppableId = destination.droppableId)
    (ho : (tasks.filter (fun t => t.status = source.droppableId))[source.index]? = some orig) :
    ∃ newTasks movedTask,
      reorderTasks tasks source destination = .ok (newTasks, movedTask) ∧
      newTasks.length =
        tasks.length + (tasks.filter (fun t => t.status = source.droppableId)).length := by
  have hlt : source.index < (tasks.filter (fun t => t.status = source.droppableId)).length := by
    by_contra hge
    rw [List.getElem?_eq_none (by omega)] at ho
    cases ho
  refine ⟨_, _, reorderTasks_ok tasks source destination orig ho, ?_⟩
  have hlen := List.length_eq_countP_add_countP
    (fun t : Task => decide (t.status = source.droppableId)) tasks
  rw [List.countP_eq_length_filter, List.countP_eq_length_filter] at hlen
  have hfil : tasks.filter (fun task =>
      task.status ≠ source.droppableId ∧ task.status ≠ destination.droppableId) =
      tasks.filter (fun a => decide ¬(fun t : Task => decide (t.status = source.droppableId)) a
        = true) := by
    apply List.filter_congr
    intro a _
    simp [← hsame]
  have hw : ¬ (source.droppableId ≠ destination.droppableId) := fun h => h hsame
  simp only [tasksAfterDrag, if_neg hw]
  rw [hfil]
  simp only [List.length_append, List.length_eraseIdx, hlt, if_true, ← hsame]
  rw [List.length_insertIdx _ _ (by omega)]
  omega

theorem onDragEnd_accepted (api : Api) (id : String) (st : BoardViewState) (board : Board)
    (result : DropResult) (destination : DraggableLocation) (orig : Task)
    (hb : st.board = some board) (hd : result.destination = some destination)
    (hacc : ¬ (destination.droppableId = result.source.droppableId ∧
      destination.index = result.source.index))
    (ho : (board.tasks.filter (fun t => t.status = result.source.droppableId))[
      result.source.index]? = some orig) :
    onDragEnd api id st result =
      .ok ([Event.setBoard
              { board with tasks := tasksAfterDrag board.tasks result.source destination orig },
            Event.updateTask board._id orig._id destination.droppableId] ++
           (if api.updateTask board._id orig._id destination.droppableId then []
            else fetchBoard api id)) := by
  unfold onDragEnd
  simp only [hd, hb, if_neg hacc, reorderTasks_ok _ _ _ _ ho]

/-! ## Properties of the board view -/

theorem fetchBoard_no_updateTask (api : Api) (id : String) :
    (fetchBoard api id).filter Event.isUpdateTask = [] := by
  unfold fetchBoard
  cases api.getBoard id <;> rfl

theorem runEvents_fetchBoard (api : Api) (id : String) (st : BoardViewState) (B : Board)
    (h : api.getBoard id = some B) :
    runEvents st (fetchBoard api id) = { board := some B, loading := false, error := none } := by
  simp [fetchBoard, h, runEvents, applyEvent]

theorem assignStatus_of_not_mem (objId : Nat) (status : String) (arr : List Task)
    (h : ∀ t ∈ arr, t.objId ≠ objId) : assignStatus objId status arr = arr := by
  unfold assignStatus
  rw [List.map_congr_left (g := id)]
  · simp
  · intro t ht
    simp [h t ht]

theorem tasksAfterDrag_split_of_nodup (before after : List Task) (dragged : Task)
    (source destination : DraggableLocation)
    (hs : dragged.status = source.droppableId)
    (hne : destination.droppableId ≠ source.droppableId)
    (hi : (before.filter (fun t => t.status = source.droppableId)).length = source.index)
    (hnd : ((before ++ dragged :: after).map Task.objId).Nodup) :
    tasksAfterDrag (before ++ dragged :: after) source destination dragged =
      tasksAfterDragDistinct (before ++ dragged :: after) source destination dragged := by
  have hother : ∀ t ∈ before ++ after, t.objId ≠ dragged.objId := by
    intro t ht heq
    rw [List.map_append, List.map_cons] at hnd
    have hnot := (List.nodup_cons.mp (List.nodup_middle.mp hnd)).1
    apply hnot
    rw [← List.map_append, ← heq]
    exact List.mem_map_of_mem _ ht
  have hbefore : ∀ t ∈ before, t.objId ≠ dragged.objId :=
    fun t ht => hother t (List.mem_append_left _ ht)
  have hafter : ∀ t ∈ after, t.objId ≠ dragged.objId :=
    fun t ht => hother t (List.mem_append_right _ ht)
  have hp : (fun t : Task => decide (t.status = source.droppableId)) dragged = true := by
    simpa using hs
  have hS := filter_eraseIdx_of_split (fun t : Task => decide (t.status = source.droppableId))
    before after dragged hp
  rw [hi] at hS
  have hD : (before ++ dragged :: after).filter (fun t => t.status = destination.droppableId) =
      (before ++ after).filter (fun t => t.status = destination.droppableId) := by
    simp [List.filter_cons, hs, Ne.symm hne]
  have hw : source.droppableId ≠ destination.droppableId := Ne.symm hne
  have h1 : assignStatus dragged.objId destination.droppableId (before ++ dragged :: after) =
      before ++ { dragged with status := destination.droppableId } :: after := by
    have hb := assignStatus_of_not_mem dragged.objId destination.droppableId before hbefore
    have ha := assignStatus_of_not_mem dragged.objId destination.droppableId after hafter
    unfold assignStatus at hb ha ⊢
    rw [List.map_append, List.map_cons, hb, ha]
    simp
  have h2 : assignStatus dragged.objId destination.droppableId
      ((before ++ after).filter (fun t => t.status = source.droppableId)) =
      (before ++ after).filter (fun t => t.status = source.droppableId) :=
    assignStatus_of_not_mem _ _ _ (fun t ht => hother t (List.mem_filter.mp ht).1)
  have hj : min destination.index
      ((before ++ after).filter (fun t => t.status = destination.droppableId)).length ≤
      ((before ++ after).filter (fun t => t.status = destination.droppableId)).length := by
    omega
  have h3 : assignStatus dragged.objId destination.droppableId
      (((before ++ after).filter (fun t => t.status = destination.droppableId)).insertIdx
        (min destination.index
          ((before ++ after).filter (fun t => t.status = destination.droppableId)).length)
        dragged) =
      ((before ++ after).filter (fun t => t.status = destination.droppableId)).insertIdx
        (min destination.index
          ((before ++ after).filter (fun t => t.status = destination.droppableId)).length)
        { dragged with status := destination.droppableId } := by
    rw [insertIdx_eq_take_drop _ _ _ hj, insertIdx_eq_take_drop _ _ _ hj]
    have ht := assignStatus_of_not_mem dragged.objId destination.droppableId
      (((before ++ after).filter (fun t => t.status = destination.droppableId)).take
        (min destination.index
          ((before ++ after).filter (fun t => t.status = destination.droppableId)).length))
      (fun t ht => hother t (List.mem_filter.mp (List.mem_of_mem_take ht)).1)
    have hdr := assignStatus_of_not_mem dragged.objId destination.droppableId
      (((before ++ after).filter (fun t => t.status = destination.droppableId)).drop
        (min destination.index
          ((before ++ after).filter (fun t => t.status = destination.droppableId)).length))
      (fun t ht => hother t (List.mem_filter.mp (List.mem_of_mem_drop ht)).1)
    unfold assignStatus at ht hdr ⊢
    rw [List.map_append, List.map_cons, ht, hdr]
    simp
  simp only [tasksAfterDrag, tasksAfterDragDistinct, if_pos hw, hS, hD, h1, h2, h3]
  congr 2
  simp [List.filter_cons, hs]

theorem tasksAfterDrag_of_nodup (tasks : List Task) (source destination : DraggableLocation)
    (orig : Task)
    (hne : destination.droppableId ≠ source.droppableId)
    (ho : (tasks.filter (fun t => t.status = source.droppableId))[source.index]? = some orig)
    (hnd : (tasks.map Task.objId).Nodup) :
    tasksAfterDrag tasks source destination orig =
      tasksAfterDragDistinct tasks source destination orig := by
  have hlt : source.index < (tasks.filter (fun t => t.status = source.droppableId)).length := by
    by_contra hge
    rw [List.getElem?_eq_none (by omega)] at ho
    cases ho
  obtain ⟨before, dragged, after, hl, hp, hi⟩ := filter_split_at _ _ _ hlt
  have hx : (tasks.filter (fun t => t.status = source.droppableId))[source.index]? =
      some dragged := by
    rw [hl, ← hi]; exact filter_getElem?_of_split _ _ _ _ hp
  have heq : dragged = orig := Option.some.inj (hx.symm.trans ho)
  subst heq
  subst hl
  exact tasksAfterDrag_split_of_nodup before after dragged source destination
    (by simpa using hp) hne hi hnd

theorem tasksAfterDragDistinct_perm (before after : List Task) (dragged : Task)
    (source destination : DraggableLocation)
    (hs : dragged.status = source.droppableId)
    (hne : destination.droppableId ≠ source.droppableId)
    (hi : (before.filter (fun t => t.status = source.droppableId)).length = source.index) :
    (tasksAfterDragDistinct (before ++ dragged :: after) source destination dragged).Perm
      (before ++ { dragged with status := destination.droppableId } :: after) := by
  have hp : (fun t : Task => decide (t.status = source.droppableId)) dragged = true := by
    simpa using hs
  have hS := filter_eraseIdx_of_split (fun t : Task => decide (t.status = source.droppableId))
    before after dragged hp
  rw [hi] at hS
  have hD : (before ++ dragged :: after).filter (fun t => t.status = destination.droppableId) =
      (before ++ after).filter (fun t => t.status = destination.droppableId) := by
    simp [List.filter_cons, hs, Ne.symm hne]
  have hO : (before ++ dragged :: after).filter (fun t =>
        t.status ≠ source.droppableId ∧ t.status ≠ destination.droppableId) =
      (before ++ after).filter (fun t =>
        t.status ≠ source.droppableId ∧ t.status ≠ destination.droppableId) := by
    simp [List.filter_cons, hs]
  unfold tasksAfterDragDistinct
  simp only [hS, hD, hO]
  refine List.Perm.trans ?_ List.perm_middle.symm
  refine List.Perm.trans (List.Perm.append_left _ (List.perm_insertIdx _ _ (by omega))) ?_
  refine List.Perm.trans List.perm_middle (List.Perm.cons _ ?_)
  exact partition_perm (before ++ after) _ _ (Ne.symm hne)

/-- C1 (as amended): on a board whose task array holds no object twice, an
accepted drag from one column to another first writes a board whose task list
has the length of the old one and is a rearrangement of the old list in which
the task at `source.index` of the source bucket, and no other entry, has been
replaced by itself with `status` set to `destination.droppableId`. -/
theorem onDragEnd_cross_column_conserves (api : Api) (id : String) (st : BoardViewState)
    (board : Board) (result : DropResult) (destination : DraggableLocation)
    (hb : st.board = some board) (hd : result.destination = some destination)
    (hne : destination.droppableId ≠ result.source.droppableId)
    (hidx : result.source.index <
      (board.tasks.filter (fun t => t.status = result.source.droppableId)).length)
    (hnd : (board.tasks.map Task.objId).Nodup) :
    ∃ newTasks rest before dragged after,
      onDragEnd api id st result =
        .ok (Event.setBoard { board with tasks := newTasks } :: rest) ∧
      board.tasks = before ++ dragged :: after ∧
      dragged.status = result.source.droppableId ∧
      (before.filter (fun t => t.status = result.source.droppableId)).length =
        result.source.index ∧
      newTasks.length = board.tasks.length ∧
      newTasks.Perm (before ++ { dragged with status := destination.droppableId } :: after) := by
  obtain ⟨before, dragged, after, hl, hp, hi⟩ := filter_split_at _ _ _ hidx
  have hs : dragged.status = result.source.droppableId := by simpa using hp
  have ho : (board.tasks.filter (fun t => t.status = result.source.droppableId))[
      result.source.index]? = some dragged := by
    rw [hl, ← hi]; exact filter_getElem?_of_split _ _ _ _ hp
  have hperm : (tasksAfterDrag board.tasks result.source destination dragged).Perm
      (before ++ { dragged with status := destination.droppableId } :: after) := by
    rw [tasksAfterDrag_of_nodup _ _ _ _ hne ho hnd, hl]
    exact tasksAfterDragDistinct_perm before after dragged result.source destination hs hne hi
  refine ⟨tasksAfterDrag board.tasks result.source destination dragged, _, before, dragged,
    after, onDragEnd_accepted api id st board result destination dragged hb hd
      (fun h => hne h.1) ho, hl, hs, hi, ?_, hperm⟩
  rw [hperm.length_eq, hl]; simp

/-- C1 (as amended) on `sampleBoard`: dragging `taskA` from "To Do" onto "Done". -/
theorem onDragEnd_cross_column_conserves_witness :
    sampleState.board = some sampleBoard ∧
    dragAcross.destination = some { droppableId := "Done", index := 0 } ∧
    "Done" ≠ dragAcross.source.droppableId ∧
    dragAcross.source.index <
      (sampleBoard.tasks.filter (fun t => t.status = dragAcross.source.droppableId)).length ∧
    (sampleBoard.tasks.map Task.objId).Nodup ∧
    ∃ newTasks rest before dragged after,
      onDragEnd acceptingApi "b1" sampleState dragAcross =
        .ok (Event.setBoard { sampleBoard with tasks := newTasks } :: rest) ∧
      sampleBoard.tasks = before ++ dragged :: after ∧
      dragged.status = dragAcross.source.droppableId ∧
      (before.filter (fun t => t.status = dragAcross.source.droppableId)).length =
        dragAcross.source.index ∧
      newTasks.length = sampleBoard.tasks.length ∧
      newTasks.Perm (before ++ { dragged with status := "Done" } :: after) :=
  ⟨rfl, rfl, by decide, by decide, by decide,
    onDragEnd_cross_column_conserves acceptingApi "b1" sampleState sampleBoard dragAcross
      { droppableId := "Done", index := 0 } rfl rfl (by decide) (by decide) (by decide)⟩

/-- C1 (as stated) fails on `aliasedBoard`, the board that the handler leaves
after the reorder `dragWithin` of `sampleBoard`: the object `taskB` sits at two
indices, so dragging it from the top of "To Do" onto "Done" changes the status
of two entries.  The list written is not the old list with the one dragged
entry replaced, and it holds the dragged task with its new status twice. -/
theorem onDragEnd_cross_column_conserves_counterexample :
    onDragEnd acceptingApi "b1" sampleState dragWithin =
      .ok [Event.setBoard aliasedBoard, Event.updateTask "b1" "t1" "To Do"] ∧
    onDragEnd acceptingApi "b1" aliasedState dragSecond =
      .ok [Event.setBoard
             { aliasedBoard with
               tasks := [taskA, taskA, { taskB with status := "Done" },
                         { taskB with status := "Done" }, taskC] },
           Event.updateTask "b1" "t2" "Done"] ∧
    aliasedBoard.tasks = [taskC] ++ taskB :: [taskA, taskA, taskB] ∧
    ¬ ([taskA, taskA, { taskB with status := "Done" }, { taskB with status := "Done" },
          taskC].Perm
        ([taskC] ++ { taskB with status := "Done" } :: [taskA, taskA, taskB])) ∧
    [taskA, taskA, { taskB with status := "Done" }, { taskB with status := "Done" },
      taskC].count { taskB with status := "Done" } = 2 := by
  decide

/-- C2 (the code departs from it): reordering `taskA` inside "To Do" on
`sampleBoard` writes a board on which both "To Do" tasks occur twice, so the
column holds four tasks where it held two; no status has changed. -/
theorem onDragEnd_same_column_duplicates :
    onDragEnd acceptingApi "b1" sampleState dragWithin =
      .ok [Event.setBoard { sampleBoard with tasks := [taskC, taskB, taskA, taskA, taskB] },
           Event.updateTask "b1" "t1" "To Do"] ∧
    (sampleBoard.tasks.filter (fun t => t.status = "To Do")).length = 2 ∧
    ([taskC, taskB, taskA, taskA, taskB].filter (fun t => t.status = "To Do")).length = 4 := by
  decide

/-- C3: when the destination is absent, or has the droppableId and the index of
the source, `onDragEnd` returns without any event: the state is the one before
the call, no board is written and no remote call is made. -/
theorem onDragEnd_noop (api : Api) (id : String) (st : BoardViewState) (result : DropResult)
    (h : ∀ d, result.destination = some d →
      d.droppableId = result.source.droppableId ∧ d.index = result.source.index) :
    ∃ events, onDragEnd api id st result = .ok events ∧
      runEvents st events = st ∧
      (∀ b, Event.setBoard b ∉ events) ∧
      events.filter Event.isRemoteCall = [] := by
  refine ⟨[], ?_, rfl, by simp, rfl⟩
  unfold onDragEnd
  cases hd : result.destination with
  | none => rfl
  | some d => simp [h d hd]

/-- C3 on `sampleBoard`: a drop outside every column. -/
theorem onDragEnd_noop_witness :
    (∀ d, dragNowhere.destination = some d →
      d.droppableId = dragNowhere.source.droppableId ∧ d.index = dragNowhere.source.index) ∧
    ∃ events, onDragEnd rejectingApi "b1" sampleState dragNowhere = .ok events ∧
      runEvents sampleState events = sampleState ∧
      (∀ b, Event.setBoard b ∉ events) ∧
      events.filter Event.isRemoteCall = [] :=
  ⟨(by intro d hd; cases hd),
    onDragEnd_noop rejectingApi "b1" sampleState dragNowhere (by intro d hd; cases hd)⟩

/-- C7: whenever `onDragEnd` has issued an `updateTask` call that the backend
rejects and the `getBoard` call of the corrective `fetchBoard` resolves with
`B`, the board in the final state is `B`. -/
theorem onDragEnd_failed_update_reloads (api : Api) (id : String) (st : BoardViewState)
    (result : DropResult) (events : List Event) (B : Board) (boardId taskId status : String)
    (h : onDragEnd api id st result = .ok events)
    (hcall : Event.updateTask boardId taskId status ∈ events)
    (hfail : api.updateTask boardId taskId status = false)
    (hget : api.getBoard id = some B) :
    (runEvents st events).board = some B := by
  cases hd : result.destination with
  | none =>
    simp only [onDragEnd, hd] at h
    cases h; simp at hcall
  | some destination =>
    by_cases hacc : destination.droppableId = result.source.droppableId ∧
        destination.index = result.source.index
    · simp only [onDragEnd, hd, hacc, and_self, if_true] at h
      cases h; simp at hcall
    · cases hb : st.board with
      | none => simp only [onDragEnd, hd, hb, if_neg hacc] at h; cases h
      | some board =>
        cases hr : reorderTasks board.tasks result.source destination with
        | error e => simp only [onDragEnd, hd, hb, hr, if_neg hacc] at h; cases h
        | ok r =>
          obtain ⟨tasks, movedTask⟩ := r
          simp only [onDragEnd, hd, hb, hr, if_neg hacc] at h
          cases h
          have hno : Event.updateTask boardId taskId status ∉ fetchBoard api id := by
            intro hm
            have : Event.updateTask boardId taskId status ∈
                (fetchBoard api id).filter Event.isUpdateTask :=
              List.mem_filter.mpr ⟨hm, rfl⟩
            rw [fetchBoard_no_updateTask] at this
            cases this
          by_cases hu : api.updateTask board._id movedTask._id movedTask.status = true
          · simp only [hu, if_true, List.append_nil, List.mem_cons, List.mem_singleton,
              List.not_mem_nil, or_false] at hcall
            rcases hcall with hc | hc
            · cases hc
            · injection hc with h1 h2 h3
              subst h1 h2 h3
              rw [hu] at hfail
              cases hfail
          · simp only [hu, if_false, runEvents, List.foldl_append, List.foldl_cons,
              List.foldl_nil, Bool.false_eq_true]
            have := runEvents_fetchBoard api id
              (applyEvent (applyEvent st (Event.setBoard { board with tasks := tasks }))
                (Event.updateTask board._id movedTask._id movedTask.status)) B hget
            unfold runEvents at this
            rw [this]

/-- C7 on `sampleBoard`: the update of the dragged task is rejected and the
board is fetched again. -/
theorem onDragEnd_failed_update_reloads_witness :
    onDragEnd rejectingApi "b1" sampleState dragAcross =
      .ok [Event.setBoard
             { sampleBoard with tasks := [taskB, { taskA with status := "Done" }, taskC] },
           Event.updateTask "b1" "t1" "Done",
           Event.setLoading true, Event.setError none, Event.getBoard "b1",
           Event.setBoard sampleBoard, Event.setLoading false] ∧
    rejectingApi.updateTask "b1" "t1" "Done" = false ∧
    rejectingApi.getBoard "b1" = some sampleBoard ∧
    (runEvents sampleState
      [Event.setBoard
         { sampleBoard with tasks := [taskB, { taskA with status := "Done" }, taskC] },
       Event.updateTask "b1" "t1" "Done",
       Event.setLoading true, Event.setError none, Event.getBoard "b1",
       Event.setBoard sampleBoard, Event.setLoading false]).board = some sampleBoard :=
  ⟨by decide, rfl, rfl,
    onDragEnd_failed_update_reloads rejectingApi "b1" sampleState dragAcross _ sampleBoard
      "b1" "t1" "Done" (by decide) (by decide) rfl rfl⟩

/-- C8: an accepted drag whose `source.index` is valid issues one `updateTask`
call and no other; it names the board's `_id` and the dragged task's `_id`, and
the status it sends is `destination.droppableId`, which is the status of the
dragged task in the task list written by `setBoard` (and, for a reorder inside
one column, the status the task already had). -/
theorem onDragEnd_single_updateTask (api : Api) (id : String) (st : BoardViewState)
    (board : Board) (result : DropResult) (destination : DraggableLocation)
    (hb : st.board = some board) (hd : result.destination = some destination)
    (hacc : ¬ (destination.droppableId = result.source.droppableId ∧
      destination.index = result.source.index))
    (hidx : result.source.index <
      (board.tasks.filter (fun t => t.status = result.source.droppableId)).length) :
    ∃ events newTasks dragged,
      onDragEnd api id st result = .ok events ∧
      events.head? = some (Event.setBoard { board with tasks := newTasks }) ∧
      (board.tasks.filter (fun t => t.status = result.source.droppableId))[
        result.source.index]? = some dragged ∧
      events.filter Event.isUpdateTask =
        [Event.updateTask board._id dragged._id destination.droppableId] ∧
      { dragged with status := destination.droppableId } ∈ newTasks ∧
      (destination.droppableId = result.source.droppableId →
        dragged.status = destination.droppableId) := by
  obtain ⟨orig, ho⟩ : ∃ orig,
      (board.tasks.filter (fun t => t.status = result.source.droppableId))[
        result.source.index]? = some orig := ⟨_, List.getElem?_eq_getElem hidx⟩
  have hst := status_of_getElem?_filter _ _ _ _ ho
  refine ⟨_, _, orig, onDragEnd_accepted api id st board result destination orig hb hd hacc ho,
    rfl, ho, ?_, ?_, ?_⟩
  · by_cases hu : api.updateTask board._id orig._id destination.droppableId = true <;>
      simp [hu, List.filter_cons, Event.isUpdateTask, fetchBoard_no_updateTask]
  · have hmem : orig ∈
        (board.tasks.filter (fun task => task.status = destination.droppableId)).insertIdx
          (min destination.index
            (board.tasks.filter (fun task => task.status = destination.droppableId)).length)
          orig := by
      rw [List.mem_insertIdx (by omega)]
      left; rfl
    simp only [tasksAfterDrag, List.mem_append]
    right
    by_cases hw : result.source.droppableId ≠ destination.droppableId
    · rw [if_pos hw]
      unfold assignStatus
      exact List.mem_map.mpr ⟨_, hmem, by simp⟩
    · rw [if_neg hw]
      have hsame : result.source.droppableId = destination.droppableId := by
        by_contra h; exact hw h
      have heq : ({ orig with status := destination.droppableId } : Task) = orig := by
        rw [← hsame, ← hst]
      rw [heq]
      exact hmem
  · intro h
    rw [h]
    exact hst

/-- C8 on `sampleBoard`: a reorder inside "To Do". -/
theorem onDragEnd_single_updateTask_witness :
    sampleState.board = some sampleBoard ∧
    dragWithin.destination = some { droppableId := "To Do", index := 1 } ∧
    ¬ ("To Do" = dragWithin.source.droppableId ∧ 1 = dragWithin.source.index) ∧
    dragWithin.source.index <
      (sampleBoard.tasks.filter (fun t => t.status = dragWithin.source.droppableId)).length ∧
    ∃ events newTasks dragged,
      onDragEnd acceptingApi "b1" sampleState dragWithin = .ok events ∧
      events.head? = some (Event.setBoard { sampleBoard with tasks := newTasks }) ∧
      (sampleBoard.tasks.filter (fun t => t.status = dragWithin.source.droppableId))[
        dragWithin.source.index]? = some dragged ∧
      events.filter Event.isUpdateTask =
        [Event.updateTask sampleBoard._id dragged._id "To Do"] ∧
      { dragged with status := "To Do" } ∈ newTasks ∧
      ("To Do" = dragWithin.source.droppableId → dragged.status = "To Do") :=
  ⟨rfl, rfl, by decide, by decide,
    onDragEnd_single_updateTask acceptingApi "b1" sampleState sampleBoard dragWithin
      { droppableId := "To Do", index := 1 } rfl rfl (by decide) (by decide)⟩

theorem filter_status_tasksAfterDragDistinct (tasks : List Task) (source destination : DraggableLocation)
    (orig : Task) (c : String)
    (hne : destination.droppableId ≠ source.droppableId)
    (hj : destination.index ≤
      (tasks.filter (fun t => t.status = destination.droppableId)).length) :
    (tasksAfterDragDistinct tasks source destination orig).filter (fun t => t.status = c) =
      if c = destination.droppableId then
        (tasks.filter (fun t => t.status = c)).insertIdx destination.index
          { orig with status := destination.droppableId }
      else if c = source.droppableId then
        (tasks.filter (fun t => t.status = c)).eraseIdx source.index
      else tasks.filter (fun t => t.status = c) := by
  have hmin : min destination.index
      (tasks.filter (fun t => t.status = destination.droppableId)).length =
        destination.index := by omega
  have hsrc : ∀ a ∈ (tasks.filter (fun t => t.status = source.droppableId)).eraseIdx
      source.index, a.status = source.droppableId := by
    intro a ha
    simpa using (List.mem_filter.mp (List.mem_of_mem_eraseIdx ha)).2
  have hdst : ∀ a ∈ (tasks.filter (fun t => t.status = destination.droppableId)).insertIdx
      destination.index { orig with status := destination.droppableId },
      a.status = destination.droppableId := by
    intro a ha
    rw [List.mem_insertIdx hj] at ha
    rcases ha with ha | ha
    · rw [ha]
    · simpa using (List.mem_filter.mp ha).2
  unfold tasksAfterDragDistinct
  simp only [hmin, List.filter_append]
  by_cases h1 : c = destination.droppableId
  · subst h1
    rw [if_pos rfl]
    have e1 : (tasks.filter (fun task => task.status ≠ source.droppableId ∧
        task.status ≠ destination.droppableId)).filter
          (fun t => t.status = destination.droppableId) = [] := by
      rw [List.filter_eq_nil_iff]
      intro a ha
      have := (List.mem_filter.mp ha).2
      simp only [decide_eq_true_eq] at this ⊢
      exact this.2
    have e2 : ((tasks.filter (fun t => t.status = source.droppableId)).eraseIdx
        source.index).filter (fun t => t.status = destination.droppableId) = [] := by
      rw [List.filter_eq_nil_iff]
      intro a ha
      simp only [decide_eq_true_eq]
      rw [hsrc a ha]
      exact Ne.symm hne
    have e3 : ((tasks.filter (fun t => t.status = destination.droppableId)).insertIdx
        destination.index { orig with status := destination.droppableId }).filter
          (fun t => t.status = destination.droppableId) = _ :=
      List.filter_eq_self.mpr (fun a ha => by simpa using hdst a ha)
    rw [e1, e2, e3]; rfl
  · rw [if_neg h1]
    have e3 : ((tasks.filter (fun t => t.status = destination.droppableId)).insertIdx
        destination.index { orig with status := destination.droppableId }).filter
          (fun t => t.status = c) = [] := by
      rw [List.filter_eq_nil_iff]
      intro a ha
      simp only [decide_eq_true_eq]
      rw [hdst a ha]
      exact Ne.symm h1
    by_cases h2 : c = source.droppableId
    · subst h2
      rw [if_pos rfl]
      have e1 : (tasks.filter (fun task => task.status ≠ source.droppableId ∧
          task.status ≠ destination.droppableId)).filter
            (fun t => t.status = source.droppableId) = [] := by
        rw [List.filter_eq_nil_iff]
        intro a ha
        have := (List.mem_filter.mp ha).2
        simp only [decide_eq_true_eq] at this ⊢
        exact this.1
      have e2 : ((tasks.filter (fun t => t.status = source.droppableId)).eraseIdx
          source.index).filter (fun t => t.status = source.droppableId) = _ :=
        List.filter_eq_self.mpr (fun a ha => by simpa using hsrc a ha)
      rw [e1, e2, e3]; simp
    · rw [if_neg h2]
      have e1 : (tasks.filter (fun task => task.status ≠ source.droppableId ∧
          task.status ≠ destination.droppableId)).filter (fun t => t.status = c) =
            tasks.filter (fun t => t.status = c) := by
        rw [List.filter_filter]
        apply List.filter_congr
        intro a _
        by_cases hc : a.status = c
        · simp [hc, h1, h2]
        · simp [hc]
      have e2 : ((tasks.filter (fun t => t.status = source.droppableId)).eraseIdx
          source.index).filter (fun t => t.status = c) = [] := by
        rw [List.filter_eq_nil_iff]
        intro a ha
        simp only [decide_eq_true_eq]
        rw [hsrc a ha]
        exact Ne.symm h2
      rw [e1, e2, e3]; simp

/-- C10 (as amended): on a board whose task array holds no object twice, after
an accepted drag from one column to another, with `source.index` valid in the
source bucket and `destination.index` at most the length of the destination
bucket, `groupedTasks` of the task list written by `setBoard` holds, under the
destination column, the old bucket with the dragged task (status rewritten)
inserted at `destination.index`; under the source column, the old bucket
without its entry at `source.index`; under any other column, the old bucket. -/
theorem onDragEnd_cross_column_buckets (api : Api) (id : String) (st : BoardViewState)
    (board : Board) (result : DropResult) (destination : DraggableLocation)
    (hb : st.board = some board) (hd : result.destination = some destination)
    (hne : destination.droppableId ≠ result.source.droppableId)
    (hidx : result.source.index <
      (board.tasks.filter (fun t => t.status = result.source.droppableId)).length)
    (hj : destination.index ≤
      (board.tasks.filter (fun t => t.status = destination.droppableId)).length)
    (hnd : (board.tasks.map Task.objId).Nodup) :
    ∃ newTasks rest dragged,
      onDragEnd api id st result =
        .ok (Event.setBoard { board with tasks := newTasks } :: rest) ∧
      (board.tasks.filter (fun t => t.status = result.source.droppableId))[
        result.source.index]? = some dragged ∧
      ∀ column ∈ columns, ∃ old,
        (groupedTasks board.tasks).get column.id = some old ∧
        (groupedTasks newTasks).get column.id = some
          (if column.id = destination.droppableId then
            old.insertIdx destination.index { dragged with status := destination.droppableId }
          else if column.id = result.source.droppableId then
            old.eraseIdx result.source.index
          else old) := by
  have ho := List.getElem?_eq_getElem hidx
  refine ⟨_, _, _, onDragEnd_accepted api id st board result destination _ hb hd
    (fun h => hne h.1) ho, ho, ?_⟩
  intro column hc
  refine ⟨_, groupedTasks_get_column board.tasks column hc, ?_⟩
  rw [groupedTasks_get_column _ column hc, tasksAfterDrag_of_nodup _ _ _ _ hne ho hnd,
    filter_status_tasksAfterDragDistinct _ _ _ _ _ hne hj]

/-- C10 (as amended) on `sampleBoard`: dragging `taskA` from "To Do" onto the
top of "Done". -/
theorem onDragEnd_cross_column_buckets_witness :
    sampleState.board = some sampleBoard ∧
    dragAcross.destination = some { droppableId := "Done", index := 0 } ∧
    "Done" ≠ dragAcross.source.droppableId ∧
    dragAcross.source.index <
      (sampleBoard.tasks.filter (fun t => t.status = dragAcross.source.droppableId)).length ∧
    0 ≤ (sampleBoard.tasks.filter (fun t => t.status = "Done")).length ∧
    (sampleBoard.tasks.map Task.objId).Nodup ∧
    ∃ newTasks rest dragged,
      onDragEnd rejectingApi "b1" sampleState dragAcross =
        .ok (Event.setBoard { sampleBoard with tasks := newTasks } :: rest) ∧
      (sampleBoard.tasks.filter (fun t => t.status = dragAcross.source.droppableId))[
        dragAcross.source.index]? = some dragged ∧
      ∀ column ∈ columns, ∃ old,
        (groupedTasks sampleBoard.tasks).get column.id = some old ∧
        (groupedTasks newTasks).get column.id = some
          (if column.id = "Done" then
            old.insertIdx 0 { dragged with status := "Done" }
          else if column.id = dragAcross.source.droppableId then
            old.eraseIdx dragAcross.source.index
          else old) :=
  ⟨rfl, rfl, by decide, by decide, by decide, by decide,
    onDragEnd_cross_column_buckets rejectingApi "b1" sampleState sampleBoard dragAcross
      { droppableId := "Done", index := 0 } rfl rfl (by decide) (by decide) (by decide)
      (by decide)⟩

/-- C10 (as stated) fails on `aliasedBoard`, where the object `taskB` sits at
two indices of the task array: after dragging it from the top of "To Do" onto
the top of "Done", the "To Do" bucket of the written list has lost both
entries of `taskB`, not only the one at `source.index`, and the "Done" bucket
holds the dragged task twice. -/
theorem onDragEnd_cross_column_buckets_counterexample :
    onDragEnd acceptingApi "b1" aliasedState dragSecond =
      .ok [Event.setBoard
             { aliasedBoard with
               tasks := [taskA, taskA, { taskB with status := "Done" },
                         { taskB with status := "Done" }, taskC] },
           Event.updateTask "b1" "t2" "Done"] ∧
    (groupedTasks aliasedBoard.tasks).get "To Do" = some [taskB, taskA, taskA, taskB] ∧
    (groupedTasks aliasedBoard.tasks).get "Done" = some [taskC] ∧
    (groupedTasks [taskA, taskA, { taskB with status := "Done" },
        { taskB with status := "Done" }, taskC]).get "To Do" = some [taskA, taskA] ∧
    [taskA, taskA] ≠ [taskB, taskA, taskA, taskB].eraseIdx 0 ∧
    (groupedTasks [taskA, taskA, { taskB with status := "Done" },
        { taskB with status := "Done" }, taskC]).get "Done" =
      some [{ taskB with status := "Done" }, { taskB with status := "Done" }, taskC] ∧
    [{ taskB with status := "Done" }, { taskB with status := "Done" }, taskC] ≠
      [taskC].insertIdx 0 { taskB with status := "Done" } := by
  decide

/-- C6: the buckets of `groupedTasks` cover the tasks with a known status and
are disjoint.  A task whose status is a column id occurs in the bucket stored
under that id as often as in the task list; a bucket holds only tasks of the
list whose status is its key, so no task occurs under two keys; when every
status is a column id the bucket lengths add up to the number of tasks; a task
whose status is no column id occurs in no bucket. -/
theorem groupedTasks_disjoint_cover (tasks : List Task) :
    (∀ t, ∀ column ∈ columns, t.status = column.id →
      ∃ b, (groupedTasks tasks).get column.id = some b ∧ b.count t = tasks.count t) ∧
    (∀ t key b, (groupedTasks tasks).get key = some b → t ∈ b →
      key = t.status ∧ t ∈ tasks) ∧
    ((∀ t ∈ tasks, ∃ column ∈ columns, t.status = column.id) →
      ((groupedTasks tasks).map (fun entry => entry.2.length)).sum = tasks.length) ∧
    (∀ t, (∀ column ∈ columns, t.status ≠ column.id) →
      ∀ key b, (groupedTasks tasks).get key = some b → t ∉ b) := by
  refine ⟨?_, ?_, ?_, ?_⟩
  · intro t column hc hs
    refine ⟨_, groupedTasks_get_column tasks column hc, ?_⟩
    rw [List.count_filter]
    simpa using hs
  · intro t key b hget hmem
    obtain ⟨_, hb⟩ := groupedTasks_get_some tasks key b hget
    rw [hb] at hmem
    have := List.mem_filter.mp hmem
    have hk : t.status = key := by simpa using this.2
    exact ⟨hk.symm, this.1⟩
  · intro hall
    rw [groupedTasks_eq]
    induction tasks with
    | nil => rfl
    | cons t ts ih =>
      have ih' := ih (fun a ha => hall a (List.mem_cons_of_mem _ ha))
      obtain ⟨column, hc, hs⟩ := hall t (List.mem_cons_self _ _)
      simp only [columns, List.mem_cons, List.mem_singleton, List.not_mem_nil, or_false] at hc
      simp only [columns, List.map, List.sum_cons, List.sum_nil] at ih' ⊢
      rcases hc with hc | hc | hc | hc | hc | hc | hc | hc <;> subst hc <;>
        simp [List.filter_cons, hs] <;> omega
  · intro t hno key b hget hmem
    obtain ⟨⟨column, hc, hk⟩, hb⟩ := groupedTasks_get_some tasks key b hget
    rw [hb] at hmem
    have := (List.mem_filter.mp hmem).2
    simp only [decide_eq_true_eq] at this
    exact hno column hc (this.trans hk.symm)

/-- C6 on `sampleBoard`, where every status is a column id: the bucket lengths
add up to the number of tasks. -/
theorem groupedTasks_disjoint_cover_witness :
    (∀ t ∈ sampleBoard.tasks, ∃ column ∈ columns, t.status = column.id) ∧
    ((groupedTasks sampleBoard.tasks).map (fun entry => entry.2.length)).sum =
      sampleBoard.tasks.length :=
  ⟨by decide, (groupedTasks_disjoint_cover sampleBoard.tasks).2.2.1 (by decide)⟩

/-- C9: grouping is idempotent: `groupedTasks` of the buckets joined in column
order is `groupedTasks` of the task list, key by key and task by task. -/
theorem groupedTasks_idempotent (tasks : List Task) :
    groupedTasks (bucketsInColumnOrder tasks) = groupedTasks tasks := by
  rw [groupedTasks_eq, groupedTasks_eq, bucketsInColumnOrder_eq]
  simp only [columns, List.map_cons, List.map_nil, List.flatten_cons, List.flatten_nil,
    List.filter_append, filter_status_filter_status, List.filter_nil]
  simp

/-! ## Properties of the column settings editor -/

theorem digitChar_spec : ∀ d < 10,
    isDecimalDigit (Nat.digitChar d) = true ∧ (Nat.digitChar d).toNat - '0'.toNat = d := by
  decide

theorem toDigitsCore_append (f : Nat) : ∀ (n : Nat) (acc : List Char),
    Nat.toDigitsCore 10 f n acc = Nat.toDigitsCore 10 f n [] ++ acc := by
  induction f with
  | zero => intro n acc; simp [Nat.toDigitsCore]
  | succ f ih =>
    intro n acc
    simp only [Nat.toDigitsCore]
    split
    · simp
    · rw [ih (n / 10) (_ :: acc), ih (n / 10) [_]]; simp

theorem toDigitsCore_spec (f : Nat) : ∀ n, n < f →
    (∀ c ∈ Nat.toDigitsCore 10 f n [], isDecimalDigit c = true) ∧
    digitsValue (Nat.toDigitsCore 10 f n []) = n ∧ Nat.toDigitsCore 10 f n [] ≠ [] := by
  induction f with
  | zero => intro n h; omega
  | succ f ih =>
    intro n h
    have hd := digitChar_spec (n % 10) (Nat.mod_lt _ (by decide))
    simp only [Nat.toDigitsCore]
    split
    · rename_i h0
      refine ⟨by simpa using hd.1, ?_, by simp⟩
      simp only [digitsValue, List.foldl]
      have := hd.2
      omega
    · rename_i h0
      rw [toDigitsCore_append]
      have hlt : n / 10 < f := by omega
      obtain ⟨h1, h2, h3⟩ := ih (n / 10) hlt
      refine ⟨?_, ?_, by simp⟩
      · intro c hc
        simp only [List.mem_append, List.mem_singleton] at hc
        rcases hc with hc | hc
        · exact h1 c hc
        · rw [hc]; exact hd.1
      · simp only [digitsValue, List.foldl_append, List.foldl] at h2 ⊢
        rw [h2]
        have := hd.2
        omega

theorem not_whiteSpace_of_digit (c : Char) (h : isDecimalDigit c = true) :
    isStrWhiteSpaceChar c = false := by
  simp only [isDecimalDigit, decide_eq_true_eq] at h
  have h0 : '0'.toNat = 48 := by decide
  have h9 : '9'.toNat = 57 := by decide
  rw [h0, h9] at h
  simp only [isStrWhiteSpaceChar, List.mem_cons, List.mem_singleton, List.not_mem_nil,
    or_false, decide_eq_false_iff_not]
  omega

theorem parseInt_digits (digits : List Char) (hne : digits ≠ [])
    (hall : ∀ c ∈ digits, isDecimalDigit c = true)
    (hfin : roundToDouble (digitsValue digits) < 2 ^ 1024) :
    parseInt (String.mk digits) = JsNumber.int (roundToDouble (digitsValue digits)) := by
  obtain ⟨c, rest, rfl⟩ := List.exists_cons_of_ne_nil hne
  have hc := hall c (List.mem_cons_self _ _)
  have hminus : c ≠ '-' := by
    intro h; subst h; revert hc; decide
  have hplus : c ≠ '+' := by
    intro h; subst h; revert hc; decide
  have htake : (c :: rest).takeWhile isDecimalDigit = c :: rest := by
    rw [List.takeWhile_eq_self_iff]
    exact hall
  have hfin' : ¬ 2 ^ 1024 ≤ roundToDouble (digitsValue (c :: rest)) := by omega
  unfold parseInt
  simp only [String.toList, List.dropWhile_cons, not_whiteSpace_of_digit c hc,
    Bool.false_eq_true, if_false, List.head?_cons, Option.some.injEq, hminus, hplus,
    or_self, htake, decide_False, and_false, if_neg hfin']
  simp

theorem toDigits_length_le (v : Nat) (h : v < 10 ^ 21) : (Nat.toDigits 10 v).length ≤ 21 :=
  Nat.toDigitsCore_length 10 (by decide) (v + 1) v 21 h (by decide)

theorem shortestCandidate_round (x m v : Nat) (h : shortestCandidate x m = some v) :
    roundToDouble v = x := by
  unfold shortestCandidate at h
  simp only at h
  split at h
  · rename_i hboth
    split at h
    · cases h; exact hboth.1
    · split at h
      · cases h; exact hboth.2
      · split at h
        · cases h; exact hboth.1
        · cases h; exact hboth.2
  · split at h
    · rename_i hlo; cases h; exact hlo
    · split at h
      · rename_i hhi; cases h; exact hhi
      · cases h

theorem shortestCandidate_le (x m v : Nat) (h : shortestCandidate x m = some v) :
    v ≤ x / m * m + m := by
  unfold shortestCandidate at h
  simp only at h
  repeat (first | split at h | (cases h <;> omega))

theorem shortestDecimal_round (x : Nat) (hx : roundToDouble x = x) :
    roundToDouble (shortestDecimal x) = x := by
  unfold shortestDecimal
  simp only
  cases hf : (List.range (Nat.toDigits 10 x).length).findSome?
      (fun i => shortestCandidate x (10 ^ ((Nat.toDigits 10 x).length - 1 - i))) with
  | none => simpa using hx
  | some v =>
    obtain ⟨i, _, hi⟩ := List.exists_of_findSome?_eq_some hf
    simpa using shortestCandidate_round x _ v hi

theorem shortestDecimal_lt (x : Nat) (hx : roundToDouble x = x) (hlt : x < 10 ^ 21) :
    shortestDecimal x < 10 ^ 21 := by
  have hround := shortestDecimal_round x hx
  have hlen := toDigits_length_le x hlt
  have hle : shortestDecimal x ≤ 10 ^ 21 := by
    unfold shortestDecimal
    simp only
    cases hf : (List.range (Nat.toDigits 10 x).length).findSome?
        (fun i => shortestCandidate x (10 ^ ((Nat.toDigits 10 x).length - 1 - i))) with
    | none => simpa using Nat.le_of_lt hlt
    | some v =>
      obtain ⟨i, _, hi⟩ := List.exists_of_findSome?_eq_some hf
      have hv := shortestCandidate_le x _ v hi
      have hj : (Nat.toDigits 10 x).length - 1 - i ≤ 21 := by omega
      have hpow : 10 ^ 21 =
          10 ^ ((Nat.toDigits 10 x).length - 1 - i) *
            10 ^ (21 - ((Nat.toDigits 10 x).length - 1 - i)) := by
        rw [← pow_add]
        congr 1
        omega
      have hdiv : x / 10 ^ ((Nat.toDigits 10 x).length - 1 - i) <
          10 ^ (21 - ((Nat.toDigits 10 x).length - 1 - i)) := by
        apply Nat.div_lt_of_lt_mul
        rw [← hpow]
        exact hlt
      have hmul : (x / 10 ^ ((Nat.toDigits 10 x).length - 1 - i) + 1) *
          10 ^ ((Nat.toDigits 10 x).length - 1 - i) ≤ 10 ^ 21 := by
        calc (x / 10 ^ ((Nat.toDigits 10 x).length - 1 - i) + 1) *
              10 ^ ((Nat.toDigits 10 x).length - 1 - i)
            ≤ 10 ^ (21 - ((Nat.toDigits 10 x).length - 1 - i)) *
              10 ^ ((Nat.toDigits 10 x).length - 1 - i) :=
              Nat.mul_le_mul_right _ hdiv
          _ = 10 ^ 21 := by rw [hpow, Nat.mul_comm]
      have hexp : (x / 10 ^ ((Nat.toDigits 10 x).length - 1 - i) + 1) *
          10 ^ ((Nat.toDigits 10 x).length - 1 - i) =
          x / 10 ^ ((Nat.toDigits 10 x).length - 1 - i) *
            10 ^ ((Nat.toDigits 10 x).length - 1 - i) +
            10 ^ ((Nat.toDigits 10 x).length - 1 - i) := by
        rw [Nat.add_mul, Nat.one_mul]
      simp only [Option.getD_some]
      omega
  rcases Nat.lt_or_eq_of_le hle with h | h
  · exact h
  · exfalso
    rw [h] at hround
    have h21 : roundToDouble (10 ^ 21) = 10 ^ 21 := by decide
    omega

theorem numberToString_of_pos (n : JsInteger) (hpos : 0 < n.val) (hlt : n.val < 10 ^ 21) :
    numberToString n = String.mk (Nat.toDigits 10 (shortestDecimal n.val.natAbs)) := by
  have h1 : ¬ n.val < 0 := by omega
  have h2 : n.val.natAbs < 10 ^ 21 := by omega
  have h3 := toDigits_length_le _ (shortestDecimal_lt n.val.natAbs n.isDouble h2)
  simp only [numberToString, if_neg h1, natToString, if_pos h3]

theorem parseInt_numberToString (n : JsInteger) (hpos : 0 < n.val) (hlt : n.val < 10 ^ 21) :
    parseInt (numberToString n) = JsNumber.int n.val ∧ numberToString n ≠ "" := by
  rw [numberToString_of_pos n hpos hlt]
  have hx : n.val.natAbs < 10 ^ 21 := by omega
  have hround := shortestDecimal_round n.val.natAbs n.isDouble
  obtain ⟨h1, h2, h3⟩ := toDigitsCore_spec (shortestDecimal n.val.natAbs + 1)
    (shortestDecimal n.val.natAbs) (Nat.lt_succ_self _)
  have hd : Nat.toDigits 10 (shortestDecimal n.val.natAbs) =
      Nat.toDigitsCore 10 (shortestDecimal n.val.natAbs + 1)
        (shortestDecimal n.val.natAbs) [] := rfl
  rw [hd]
  have hbig : (10 : Nat) ^ 21 < 2 ^ 1024 := by norm_num
  refine ⟨?_, ?_⟩
  · rw [parseInt_digits _ h3 h1 (by rw [h2, hround]; omega), h2, hround]
    congr 1
    omega
  · intro h
    apply h3
    have := congrArg String.data h
    simpa using this

/-- C4 (as amended): for a column whose done rule is a string `s` and whose WIP
limit is an integer `n` with `0 < n < 10 ^ 21`, initialising the staged fields
from the column and saving without edits calls `onSave` with the column id and
the patch made of `s` and the number `n`, then `onClose`. -/
theorem handleSave_round_trip (column : Column) (s : String) (n : JsInteger)
    (st : SettingsState)
    (hs : column.doneRule = some s) (hn : column.wipLimit = some n)
    (hpos : 0 < n.val) (hlt : n.val < 10 ^ 21) :
    handleSave (some column) (useEffectColumn (some column) st) =
      some [SettingsCall.onSave column.id
              { doneRule := s, wipLimit := some (JsNumber.int n.val) },
            SettingsCall.onClose] := by
  obtain ⟨hp, hne⟩ := parseInt_numberToString n hpos hlt
  have hn0 : n.val ≠ 0 := by omega
  have hdone : (if s ≠ "" then s else "") = s := by
    by_cases h : s = "" <;> simp [h]
  simp only [handleSave, useEffectColumn, hs, hn, hdone]
  simp [hn0, hne, hp]

/-- C4 (as amended) on a column with a limit of five. -/
theorem handleSave_round_trip_witness :
    limitedColumn.doneRule = some "reviewed" ∧
    limitedColumn.wipLimit = some { val := 5, isDouble := by decide } ∧
    (0 : Int) < 5 ∧ (5 : Int) < 10 ^ 21 ∧
    handleSave (some limitedColumn) (useEffectColumn (some limitedColumn) initialSettings) =
      some [SettingsCall.onSave limitedColumn.id
              { doneRule := "reviewed", wipLimit := some (JsNumber.int 5) },
            SettingsCall.onClose] :=
  ⟨rfl, rfl, by decide, by decide,
    handleSave_round_trip limitedColumn "reviewed" { val := 5, isDouble := by decide }
      initialSettings rfl rfl (by decide) (by decide)⟩

set_option exponentiation.threshold 1024 in
/-- Beyond `2 ^ 53` the staged text is not the exact numeral: the double
999999999999999868928 is staged as the shorter `999999999999999900000`, which
`parseInt` reads back as the same double. -/
theorem handleSave_round_trip_large :
    (useEffectColumn (some largeLimitColumn) initialSettings).wipLimit =
      "999999999999999900000" ∧
    handleSave (some largeLimitColumn) (useEffectColumn (some largeLimitColumn) initialSettings) =
      some [SettingsCall.onSave "Done"
              { doneRule := "x", wipLimit := some (JsNumber.int 999999999999999868928) },
            SettingsCall.onClose] := by
  decide

set_option exponentiation.threshold 1024 in
/-- C4 (as stated) fails for the limit `10 ^ 21`: the staged text is `1e+21`,
which `parseInt` reads as 1, so the patch carries 1 and not the limit. -/
theorem handleSave_round_trip_counterexample :
    (useEffectColumn (some hugeLimitColumn) initialSettings).wipLimit = "1e+21" ∧
    handleSave (some hugeLimitColumn) (useEffectColumn (some hugeLimitColumn) initialSettings) =
      some [SettingsCall.onSave "Test" { doneRule := "x", wipLimit := some (JsNumber.int 1) },
            SettingsCall.onClose] ∧
    handleSave (some hugeLimitColumn) (useEffectColumn (some hugeLimitColumn) initialSettings) ≠
      some [SettingsCall.onSave "Test"
              { doneRule := "x", wipLimit := some (JsNumber.int 1000000000000000000000) },
            SettingsCall.onClose] := by
  decide

/-- C5: for a column without a WIP limit, initialising the staged fields from
the column and saving without edits calls `onSave` with a patch whose
`wipLimit` is `null`; and whatever the column, `handleSave` on an empty staged
limit text sends `null`. -/
theorem handleSave_empty_limit :
    (∀ (column : Column) (st : SettingsState), column.wipLimit = none →
      handleSave (some column) (useEffectColumn (some column) st) =
        some [SettingsCall.onSave column.id
                { doneRule := column.doneRule.getD "", wipLimit := none },
              SettingsCall.onClose]) ∧
    (∀ (column : Column) (st : SettingsState), st.wipLimit = "" →
      handleSave (some column) st =
        some [SettingsCall.onSave column.id
                { doneRule := st.doneRule, wipLimit := none },
              SettingsCall.onClose]) := by
  constructor
  · intro column st h
    have hdone : (match column.doneRule with
        | some s => if s ≠ "" then s else ""
        | none => "") = column.doneRule.getD "" := by
      cases column.doneRule with
      | none => rfl
      | some s => by_cases h : s = "" <;> simp [h]
    simp only [handleSave, useEffectColumn, h, hdone]
    simp
  · intro column st h
    simp [handleSave, h]

/-- C5 on a column without a limit. -/
theorem handleSave_empty_limit_witness :
    unlimitedColumn.wipLimit = none ∧
    handleSave (some unlimitedColumn) (useEffectColumn (some unlimitedColumn) initialSettings) =
      some [SettingsCall.onSave "Backlog" { doneRule := "triaged", wipLimit := none },
            SettingsCall.onClose] :=
  ⟨rfl, handleSave_empty_limit.1 unlimitedColumn initialSettings rfl⟩

end Kanban
